import Mathlib

/-!
A shallow embedding of the command-registration and dispatch engine of
`src/command.py` (the `Command` class, the `BoolMapper` and `StringMapper`
argument mappers, the module-level registry `_commands` / `_command_map` /
`_subcommand_map`, and the `register` decorator), together with theorems
settling the frozen claims about it.

Python dicts are modelled as insertion-ordered association lists; raising
and catching `CommandException` is modelled with explicit outcome values;
machine-independent data (strings, booleans) is modelled directly.
-/

namespace CmdSpec

/-! ### Association lists: the model of Python dicts (insertion ordered) -/

def alGet {α β : Type} [DecidableEq α] : List (α × β) → α → Option β
  | [], _ => none
  | p :: rest, k => if p.1 = k then some p.2 else alGet rest k

def alHas {α β : Type} [DecidableEq α] (l : List (α × β)) (k : α) : Bool :=
  (alGet l k).isSome

/-- Python `d[k] = v`: update the existing key in place, otherwise append. -/
def alSet {α β : Type} [DecidableEq α] : List (α × β) → α → β → List (α × β)
  | [], k, v => [(k, v)]
  | p :: rest, k, v => if p.1 = k then (k, v) :: rest else p :: alSet rest k v

/-- Python `d.setdefault(k, v)` (only the resulting dict). -/
def alSetdefault {α β : Type} [DecidableEq α] (l : List (α × β)) (k : α) (v : β) :
    List (α × β) :=
  if alHas l k then l else l ++ [(k, v)]

/-- Python `del d[k]`. -/
def alDel {α β : Type} [DecidableEq α] (l : List (α × β)) (k : α) : List (α × β) :=
  l.filter (fun p => !decide (p.1 = k))

/-! ### String helpers mirroring the Python string operations used

All of them work on the character list of the string, so that every
definition reduces inside the kernel (Lean core's byte-position based
`String` functions do not). -/

def ofChars (l : List Char) : String := ⟨l⟩

def pyIsEmpty (s : String) : Bool := s.data.isEmpty

def pyLen (s : String) : Nat := s.data.length

/-- Python `s[n:]` (drop the first `n` characters). -/
def pyDrop (s : String) (n : Nat) : String := ofChars (s.data.drop n)

/-- Python `s[:-1]` (drop the last character). -/
def pyDropLast (s : String) : String := ofChars s.data.dropLast

def listIsPfxOf : List Char → List Char → Bool
  | [], _ => true
  | _ :: _, [] => false
  | a :: as, b :: bs => a = b && listIsPfxOf as bs

/-- Python `s.startswith(t)`. -/
def pyStartsWith (s t : String) : Bool := listIsPfxOf t.data s.data

/-- Python `s.endswith(t)`. -/
def pyEndsWith (s t : String) : Bool := listIsPfxOf t.data.reverse s.data.reverse

/-- The ASCII characters Python `str.isspace()` accepts and `str.split()`
splits on: space, `\t`, `\n`, `\v`, `\f`, `\r` and the separator control
characters `\x1c`-`\x1f`. Python also splits on non-ASCII whitespace such
as `\x85`, but every use here sits beside the `isascii` check of
`_valid_word`, which such strings already fail. -/
def pyIsSpaceChar (c : Char) : Bool :=
  c = ' ' || c = '\t' || c = '\n' || c = '\r' || c = '\x0b' || c = '\x0c'
    || c = '\x1c' || c = '\x1d' || c = '\x1e' || c = '\x1f'

def splitWsAux : List Char → List Char → List (List Char)
  | acc, [] => if acc.isEmpty then [] else [acc.reverse]
  | acc, c :: rest =>
    if pyIsSpaceChar c then
      if acc.isEmpty then splitWsAux [] rest else acc.reverse :: splitWsAux [] rest
    else splitWsAux (c :: acc) rest

/-- Python `s.split()`: split on whitespace runs, dropping empty pieces. -/
def pySplitWs (s : String) : List String :=
  (splitWsAux [] s.data).map ofChars

/-- Python `s.isascii()`. -/
def pyIsAscii (s : String) : Bool :=
  s.data.all (fun c => c.val < 128)

def asciiLowerChar (c : Char) : Char :=
  if 'A' ≤ c ∧ c ≤ 'Z' then Char.ofNat (c.toNat + 32) else c

/-- Python `s.lower()`, restricted to the ASCII letters the registry uses. -/
def asciiLower (s : String) : String :=
  ofChars (s.data.map asciiLowerChar)

/-- Python `arg.replace("-", "_")` (kebab-case normalisation); replacing a
single character needs no substring scan. -/
def pyReplaceDash (s : String) : String :=
  ofChars (s.data.map (fun c => if c = '-' then '_' else c))

def hasSubstrC (pat : List Char) : List Char → Bool
  | [] => listIsPfxOf pat []
  | l@(_ :: rest) => listIsPfxOf pat l || hasSubstrC pat rest

/-- Python `t in s` (substring containment). -/
def strContains (s t : String) : Bool := hasSubstrC t.data s.data

def split1C (pat : List Char) : List Char → Option (List Char × List Char)
  | [] => none
  | l@(c :: rest) =>
    if !pat.isEmpty && listIsPfxOf pat l then some ([], l.drop pat.length)
    else (split1C pat rest).map (fun pr => (c :: pr.1, pr.2))

/-- Python `s.split(t, 1)` packaged as a pair (piece before the first
occurrence of `t`, remainder); `(s, "")` when `t` does not occur. -/
def pySplit1 (s t : String) : String × String :=
  match split1C t.data s.data with
  | some pr => (ofChars pr.1, ofChars pr.2)
  | none => (s, "")

/-! ### `_valid_word` / `_valid_command` (src/command.py lines 6-10) -/

def validWordB (w : String) : Bool :=
  !pyIsEmpty w && (pySplitWs w).length == 1 && pyIsAscii w

def validCommandB (w : String) : Bool :=
  validWordB w && !w.data.any (fun c => c = '*')

/-! ### Values, handler parameters (the `inspect` view of a handler) -/

inductive Value
  | bool (b : Bool)
  | str (s : String)
  | noneV
deriving DecidableEq, Repr

/-- Python truthiness of the values a flag dict can hold. -/
def truthy : Value → Bool
  | .bool b => b
  | .str s => !pyIsEmpty s
  | .noneV => false

inductive ParamKind
  | positional
  | keywordOnly
  | varPositional
  | varKeyword
deriving DecidableEq, Repr

/-- One entry of `inspect.signature(func).parameters`; `default = none`
models `inspect._empty` (no default). -/
structure Param where
  name : String
  kind : ParamKind
  default : Option Value
deriving DecidableEq, Repr

def isKwOnly (p : Param) : Bool :=
  match p.kind with
  | .keywordOnly => true
  | _ => false

def isVarKeyword (p : Param) : Bool :=
  match p.kind with
  | .varKeyword => true
  | _ => false

/-- `ArgMapper._has_kwargs` (line 168). -/
def hasKwargs (sig : List Param) : Bool :=
  sig.any isVarKeyword

/-- `ArgMapper._kw_params` (line 167). -/
def kwOnlyParams (sig : List Param) : List Param :=
  sig.filter isKwOnly

/-- `StringMapper._flag_minimum` (line 289): required keyword-only params. -/
def flagMin (sig : List Param) : List String :=
  (kwOnlyParams sig).filterMap (fun p => if p.default.isNone then some p.name else none)

/-- `StringMapper._flag_maximum` (line 290): all keyword-only params. -/
def flagMax (sig : List Param) : List String :=
  (kwOnlyParams sig).map Param.name

/-- `BoolMapper._flag_defaults` (line 223): built from ALL parameters of the
signature (`self.params.values()`), defaulting missing defaults to `False`. -/
def boolFlagDefaults (sig : List Param) : List (String × Value) :=
  sig.map (fun p => (p.name, p.default.getD (Value.bool false)))

/-! ### Errors (`CommandException` flavours) and mapper computations -/

inductive CmdErr
  | invalidName
  | invalidParent
  | namingConflict
  | loadFailed
  | loadRaisedCmd
  | unknownFlag
  | missingRequiredFlags
  | unknownFlags
  | missingFlagValue
  | unknownCommand
  | internalErr
deriving DecidableEq, Repr

/-- `BoolMapper._parse_arg_name` / `StringMapper._parse_arg_name`
(lines 186-190 and 234-238). -/
def parseArgName (pfx : String) (kebab : Bool) (a : String) : String :=
  let a1 := pyDrop a (pyLen pfx)
  if kebab then pyReplaceDash a1 else a1

/-- The value written by `flags[arg] = arg not in flags or not flags[arg]`
(line 201). -/
def toggleVal (flags : List (String × Value)) (a : String) : Bool :=
  match alGet flags a with
  | none => true
  | some v => !truthy v

/-- The `for arg in parse` loop of `BoolMapper.__call__` (lines 198-201). -/
def boolLoop (hasKw : Bool) : List (String × Value) → List String → Except CmdErr (List (String × Value))
  | flags, [] => .ok flags
  | flags, a :: rest =>
    if !hasKw && !alHas flags a then .error .unknownFlag
    else boolLoop hasKw (alSet flags a (Value.bool (toggleVal flags a))) rest

/-- `BoolMapper.__call__` (lines 192-203); `flagDefaults` is the bound
command's precomputed `_flag_defaults` (of which line 196 takes a copy). -/
def boolMapperCall (pfx : String) (kebab hasKw : Bool)
    (flagDefaults : List (String × Value)) (args : List String) :
    Except CmdErr (List String × List (String × Value)) :=
  let noParse := args.filter (fun a => !pyStartsWith a pfx)
  let parse := (args.filter (fun a => pyStartsWith a pfx)).map (parseArgName pfx kebab)
  (boolLoop hasKw flagDefaults parse).map (fun flags => (noParse, flags))

/-- `StringMapper._parse_iter` (lines 240-253), run eagerly as `list(...)`
does at line 257. -/
def parseIter (pfx setTok : String) (kebab : Bool) : List String → Except CmdErr (List (String × Bool))
  | [] => .ok []
  | a :: rest =>
    if pyStartsWith a pfx then
      if strContains a setTok then
        let pr := pySplit1 a setTok
        (parseIter pfx setTok kebab rest).map
          (fun r => (parseArgName pfx kebab pr.1 ++ setTok ++ pr.2, true) :: r)
      else
        match rest with
        | [] => .error .missingFlagValue
        | v :: rest2 =>
          (parseIter pfx setTok kebab rest2).map
            (fun r => (parseArgName pfx kebab a ++ setTok ++ v, true) :: r)
    else (parseIter pfx setTok kebab rest).map (fun r => (a, false) :: r)

/-- Python `dict(pairs)`. -/
def buildDict (prs : List (String × String)) : List (String × String) :=
  prs.foldl (fun m pr => alSet m pr.1 pr.2) []

/-- `StringMapper.__call__` (lines 255-266); `fMin`/`fMax` are the bound
command's `_flag_minimum` / `_flag_maximum`. -/
def strMapperCall (pfx setTok : String) (kebab hasKw : Bool)
    (fMin fMax : List String) (args : List String) :
    Except CmdErr (List String × List (String × Value)) :=
  match parseIter pfx setTok kebab args with
  | .error e => .error e
  | .ok af =>
    let flags := buildDict (af.filterMap (fun pr => if pr.2 then some (pySplit1 pr.1 setTok) else none))
    if !(fMin.filter (fun k => !alHas flags k)).isEmpty then .error .missingRequiredFlags
    else if !hasKw && !((flags.map Prod.fst).filter (fun k => !fMax.contains k)).isEmpty then
      .error .unknownFlags
    else
      .ok (af.filterMap (fun pr => if pr.2 then none else some pr.1),
           flags.map (fun pr => (pr.1, Value.str pr.2)))

/-! ### Command nodes and the module-level registry state -/

/-- The bound argument mapper of a command: `ArgMapper()` (the identity
default from `Command.__init__`), `BoolMapper(prefix, enable_kebab_case)`
or `StringMapper(prefix, set_token, enable_kebab_case)`. -/
inductive Mapper
  | identM
  | boolM (pfx : String) (kebab : Bool)
  | strM (pfx : String) (setTok : String) (kebab : Bool)
deriving DecidableEq, Repr

/-- A `Command` object. `cid` models Python object identity (the registry
dict `_subcommand_map` is keyed by it); `func` identifies the wrapped
handler; `fullnameStr`/`parentPfx` record the values of the `fullname` and
`parent_prefix` properties, which are fixed at registration time because a
parent's names never change afterwards. -/
structure Cmd where
  cid : Nat
  func : Nat
  name : String
  names : List String
  parentId : Option Nat
  parentPfx : String
  fullnameStr : String
  sig : List Param
  mapper : Mapper
deriving DecidableEq, Repr

/-- The module-level registry (`_commands`, `_command_map`,
`_subcommand_map` at lines 292-294), plus the id counter of the model. -/
structure RegState where
  commands : List Cmd
  commandMap : List (String × Nat)
  subMap : List (Nat × List (String × Nat))
  nextId : Nat
deriving DecidableEq, Repr

def emptyState : RegState := ⟨[], [], [], 0⟩

/-- `_subcommand_map[self]` when present. -/
def childMap (σ : RegState) (c : Cmd) : Option (List (String × Nat)) :=
  alGet σ.subMap c.cid

/-- `Command.has_subcommands` (line 91): `self in _subcommand_map`. -/
def hasSubcommandsB (σ : RegState) (c : Cmd) : Bool :=
  (childMap σ c).isSome

/-- `Command.has_subcommand` (lines 141-142). -/
def hasSubcommandB (σ : RegState) (c : Cmd) (t : String) : Bool :=
  match childMap σ c with
  | none => false
  | some m => alHas m t || (pyEndsWith t "*" && alHas m (pyDropLast t))

/-- The key used by `Command.subcommand` (line 145): the token with one
trailing `*` stripped. -/
def subKey (t : String) : String :=
  if pyEndsWith t "*" then pyDropLast t else t

/-- `Command.subcommand` (lines 144-145), as the looked-up id. -/
def subcommandCid (σ : RegState) (c : Cmd) (t : String) : Option Nat :=
  (childMap σ c).bind (fun m => alGet m (subKey t))

def findCmd (σ : RegState) (cid : Nat) : Option Cmd :=
  σ.commands.find? (fun c => c.cid = cid)

/-- The observable effect of reaching a handler: which handler ran and
with which positional and keyword arguments. -/
structure CallResult where
  func : Nat
  args : List String
  kwargs : List (String × Value)
deriving DecidableEq, Repr

/-- `self.arg_mapper(*raw_args)` (line 54) for the command's bound mapper;
the base `ArgMapper.__call__` (lines 156-158) returns `(args, {})`. -/
def runMapperOn (c : Cmd) (args : List String) :
    Except CmdErr (List String × List (String × Value)) :=
  match c.mapper with
  | .identM => .ok (args, [])
  | .boolM pfx kebab => boolMapperCall pfx kebab (hasKwargs c.sig) (boolFlagDefaults c.sig) args
  | .strM pfx setTok kebab =>
    strMapperCall pfx setTok kebab (hasKwargs c.sig) (flagMin c.sig) (flagMax c.sig) args

def mapperResult (c : Cmd) (args : List String) : Except CmdErr CallResult :=
  (runMapperOn c args).map (fun pr => ⟨c.func, pr.1, pr.2⟩)

/-- `Command.__call__` (lines 48-56): descend into a matching subcommand
unless entered in no-subcommand mode, else run the bound mapper and the
handler on the full remaining token list. -/
def dispatch (σ : RegState) : List String → Cmd → Bool → Except CmdErr CallResult
  | [], c, _ => mapperResult c []
  | t :: rest, c, noSub =>
    if !noSub && hasSubcommandB σ c t then
      match subcommandCid σ c t with
      | some cid =>
        match findCmd σ cid with
        | some d => dispatch σ rest d (pyEndsWith t "*")
        | none => .error .internalErr
      | none => .error .internalErr
    else mapperResult c (t :: rest)

/-- `run`'s registry lookup (lines 414-415): `command.lower()` against
`_command_map`. -/
def lookup (σ : RegState) (s : String) : Option Nat :=
  alGet σ.commandMap (asciiLower s)

/-- The sequence of commands printed by `help` with no arguments
(lines 369-372): every element of `_commands`, in order. -/
def helpListing (σ : RegState) : List Cmd :=
  σ.commands

/-- The listing the claim under test expects from `help`: only the
top-level commands. Stated from the spec's words, for comparison with
`helpListing`. -/
def topLevelCmds (σ : RegState) : List Cmd :=
  σ.commands.filter (fun c => c.parentId.isNone)

/-! ### `register` (lines 298-341) -/

/-- The `name` argument of `register`: absent, a string, or a list. -/
inductive NameArg
  | nNone
  | nStr (s : String)
  | nList (l : List String)
deriving DecidableEq, Repr

/-- The `parent` argument: `None`, a `Command` object, or a truthy
non-`Command` value (which `register` rejects). -/
inductive ParentArg
  | noPar
  | parC (c : Cmd)
  | badPar
deriving DecidableEq, Repr

/-- The behaviour of the `on_load` callback when invoked: return `True`,
return a falsy value, raise a `CommandException`, or raise any other
exception (which `register`'s `except CommandException` does not catch). -/
inductive LoadB
  | retTrue
  | retFalse
  | raiseCmd
  | raiseOther
deriving DecidableEq, Repr

/-- The outcome of one `register(...)(func)` call: success, a
`CommandException` caught by the handler at line 330, or an exception that
escaped the handler. -/
inductive RegOutcome
  | ok (cid : Nat)
  | caught (e : CmdErr)
  | escaped
deriving DecidableEq, Repr

/-- `name = aname if aname else func.__name__` (line 302) combined with
the `str`/`list` cases of `Command.__init__` (lines 29-36): the list of
names, canonical name first. `""` and `[]` are falsy, so they fall back to
the function's name. -/
def resolvedNames (na : NameArg) (funcName : String) : List String :=
  match na with
  | .nNone => [funcName]
  | .nStr s => if pyIsEmpty s then [funcName] else [s]
  | .nList l => if l.isEmpty then [funcName] else l

/-- The `except CommandException` cleanup (lines 334-336): drop the
parent's subcommand dict if it is present and empty. -/
def cleanupSub (subMap : List (Nat × List (String × Nat))) (pc : Option Cmd) :
    List (Nat × List (String × Nat)) :=
  match pc with
  | some c => if alGet subMap c.cid = some [] then alDel subMap c.cid else subMap
  | none => subMap

/-- What a run of registration's pre-mutation phase can raise. -/
inductive RegFail
  | cmdExc (e : CmdErr)
  | escape
deriving DecidableEq, Repr

/-- The failure checks of lines 311-315, all of which happen before any
naming map is written: name validation inside `Command.__init__`, the
naming conflict check, then the `on_load` call. `escape` is an `on_load`
exception that is not a `CommandException`. -/
def regChecks (names : List String) (cmdMap : List (String × Nat))
    (onLoad : Option LoadB) : Option RegFail :=
  if names.any (fun n => !validCommandB n) then some (.cmdExc .invalidName)
  else if names.any (fun n => alHas cmdMap n) then some (.cmdExc .namingConflict)
  else
    match onLoad with
    | some .retFalse => some (.cmdExc .loadFailed)
    | some .raiseCmd => some (.cmdExc .loadRaisedCmd)
    | some .raiseOther => some .escape
    | _ => none

/-- The `_subcommand_map.setdefault(parent, {})` of line 307, which runs
before any of the checks. -/
def setdefaultSub (σ : RegState) (pc : Option Cmd) : RegState :=
  match pc with
  | some c => { σ with subMap := alSetdefault σ.subMap c.cid [] }
  | none => σ

/-- `parent_prefix` of the new command (line 105): the parent's full name
plus a space, or empty. -/
def parentPfxOf (pc : Option Cmd) : String :=
  match pc with
  | some c => c.fullnameStr ++ " "
  | none => ""

/-- The child map the conflict check of line 313 runs against:
`_subcommand_map[parent]` if a parent was given, else `_command_map`. -/
def conflictMap (σ1 : RegState) (pc : Option Cmd) : List (String × Nat) :=
  match pc with
  | some c => (alGet σ1.subMap c.cid).getD []
  | none => σ1.commandMap

/-- The mutations of lines 322-326 on success: append to `_commands`, add
every name to `_command_map` under the full path and, with a parent, to
`_subcommand_map[parent]` under the bare name. -/
def commitReg (σ1 : RegState) (pc : Option Cmd) (newCmd : Cmd) : RegState :=
  { σ1 with
    commands := σ1.commands ++ [newCmd],
    commandMap := newCmd.names.foldl
      (fun m n => alSet m (newCmd.parentPfx ++ n) newCmd.cid) σ1.commandMap,
    subMap :=
      match pc with
      | some c =>
        alSet σ1.subMap c.cid
          (newCmd.names.foldl (fun m n => alSet m n newCmd.cid)
            ((alGet σ1.subMap c.cid).getD []))
      | none => σ1.subMap,
    nextId := σ1.nextId + 1 }

/-- The body of `register`'s `inner` after the parent has been checked to
be `None` or a `Command` (`pc`). Mirrors lines 305-340: `setdefault` on
the subcommand map, the pre-mutation checks, then the mutations of lines
322-326. A `CommandException` runs the cleanup of lines 334-336; any
other exception escapes with no cleanup. -/
def registerCore (σ : RegState) (na : NameArg) (pc : Option Cmd)
    (mOpt : Option Mapper) (onLoad : Option LoadB) (func : Nat)
    (funcName : String) (sig : List Param) : RegState × RegOutcome :=
  let σ1 := setdefaultSub σ pc
  let names := resolvedNames na funcName
  match regChecks names (conflictMap σ1 pc) onLoad with
  | some (.cmdExc e) => ({ σ1 with subMap := cleanupSub σ1.subMap pc }, .caught e)
  | some .escape => (σ1, .escaped)
  | none =>
    let newCmd : Cmd :=
      { cid := σ1.nextId, func := func, name := names.headD "",
        names := names,
        parentId := pc.map Cmd.cid,
        parentPfx := parentPfxOf pc,
        fullnameStr := parentPfxOf pc ++ names.headD "",
        sig := sig, mapper := mOpt.getD .identM }
    (commitReg σ1 pc newCmd, .ok newCmd.cid)

/-- `register(name, parent=..., arg_mapper=..., on_load=...)(func)`
(lines 298-341). A truthy non-`Command` parent raises before any state is
touched (lines 308-309). -/
def register (σ : RegState) (na : NameArg) (pa : ParentArg)
    (mOpt : Option Mapper) (onLoad : Option LoadB) (func : Nat)
    (funcName : String) (sig : List Param) : RegState × RegOutcome :=
  match pa with
  | .badPar => (σ, .caught .invalidParent)
  | .noPar => registerCore σ na none mOpt onLoad func funcName sig
  | .parC c => registerCore σ na (some c) mOpt onLoad func funcName sig

/-- A well-formedness condition of reachable registries: no parent is
mapped to an empty subcommand dict. Every successful registration under a
parent leaves its dict non-empty, and every caught failure removes an
empty dict it may have added. -/
def noEmptyChildDicts (σ : RegState) : Bool :=
  σ.subMap.all (fun pr => !pr.2.isEmpty)

end CmdSpec

deriving instance DecidableEq for Except

namespace CmdSpec

/-! ### A mutable-store model of `BoolMapper` for the aliasing claim

`BoolMapper` keeps its precomputed `_flag_defaults` dict in the mapper
object; `flag_defaults` (line 218) returns `dict(self._flag_defaults)`, a
fresh copy, and `__call__` (lines 192-203) mutates that copy in place. To
state that this mutation never reaches the stored defaults, dicts live in
an explicit store and the mapper holds an address. -/

structure Store where
  dicts : List (List (String × Value))
deriving DecidableEq, Repr

def readD (st : Store) (a : Nat) : List (String × Value) :=
  st.dicts.getD a []

def writeD (st : Store) (a : Nat) (d : List (String × Value)) : Store :=
  ⟨st.dicts.set a d⟩

/-- Allocate a new dict object, returning its address. -/
def allocD (st : Store) (d : List (String × Value)) : Store × Nat :=
  (⟨st.dicts ++ [d]⟩, st.dicts.length)

/-- A bound `BoolMapper` instance: configuration plus the address of its
stored `_flag_defaults` dict. -/
structure BoolMapperH where
  pfx : String
  kebab : Bool
  hasKw : Bool
  defaultsAddr : Nat
deriving DecidableEq, Repr

/-- The `command` setter of `BoolMapper` (lines 220-223): precompute
`_flag_defaults` from the whole parameter list and store it. -/
def boolBindH (st : Store) (pfx : String) (kebab : Bool) (sig : List Param) :
    Store × BoolMapperH :=
  let pr := allocD st (boolFlagDefaults sig)
  (pr.1, ⟨pfx, kebab, hasKwargs sig, pr.2⟩)

/-- The `for arg in parse` loop of `BoolMapper.__call__`, mutating the
dict at address `a` in place. -/
def heapLoop (hasKw : Bool) (a : Nat) : Store → List String → Store × Option CmdErr
  | st, [] => (st, none)
  | st, x :: rest =>
    let d := readD st a
    if !hasKw && !alHas d x then (st, some .unknownFlag)
    else heapLoop hasKw a (writeD st a (alSet d x (Value.bool (toggleVal d x)))) rest

/-- `BoolMapper.__call__` against the store: line 196 takes a fresh copy
of the stored defaults (the `dict(...)` in the `flag_defaults` property),
and the loop mutates only that copy. Returns the address of the dict
handed to the handler. -/
def boolCallH (st : Store) (m : BoolMapperH) (args : List String) :
    Store × Except CmdErr (List String × Nat) :=
  let noParse := args.filter (fun x => !pyStartsWith x m.pfx)
  let parse := (args.filter (fun x => pyStartsWith x m.pfx)).map (parseArgName m.pfx m.kebab)
  let pr := allocD st (readD st m.defaultsAddr)
  match heapLoop m.hasKw pr.2 pr.1 parse with
  | (st2, none) => (st2, .ok (noParse, pr.2))
  | (st2, some e) => (st2, .error e)

/-- What a caller can observe of one `__call__`: the positional list and
the contents of the returned keyword dict. -/
def observeBool (pr : Store × Except CmdErr (List String × Nat)) :
    Except CmdErr (List String × List (String × Value)) :=
  pr.2.map (fun r => (r.1, readD pr.1 r.2))

/-! ### Concrete registries used by the counterexamples and witnesses -/

def dummyCmd : Cmd := ⟨0, 0, "", [], none, "", "", [], .identM⟩

/-- Register `p` (handler 10) at top level in an empty registry. -/
def stP : RegState :=
  (register emptyState (.nStr "p") .noPar none none 10 "p" []).1

def cmdP : Cmd := stP.commands.headD dummyCmd

/-- Then register `c` (handler 20) as a child of `p`. -/
def stPC : RegState :=
  (register stP (.nStr "c") (.parC cmdP) none none 20 "c" []).1

def cmdC : Cmd := stPC.commands.getD 1 dummyCmd

/-- Then register `x` (handler 30) as a child of `c`. -/
def stPCX : RegState :=
  (register stPC (.nStr "x") (.parC cmdC) none none 30 "x" []).1

/-- An attempt to register `c` under `p` whose `on_load` raises an
exception that is not a `CommandException`. -/
def stLeak : RegState × RegOutcome :=
  register stP (.nStr "c") (.parC cmdP) none (some .raiseOther) 20 "c" []

/-- The signature of the built-in `help(command=None, *args)`. -/
def helpSig : List Param :=
  [⟨"command", .positional, some .noneV⟩, ⟨"args", .varPositional, none⟩]

/-- The four built-in registrations performed at module import
(lines 363-408): `help`, `quit`/`exit`/`close`, `reload`/`rel`,
`clear`/`cls`, with handlers 1-4. -/
def builtinsState : RegState :=
  (register (register (register (register emptyState
    .nNone .noPar none none 1 "help" helpSig).1
    (.nList ["quit", "exit", "close"]) .noPar none none 2 "quit" []).1
    (.nList ["reload", "rel"]) .noPar none none 3 "reload" []).1
    (.nList ["clear", "cls"]) .noPar none none 4 "clear" []).1

/-- Builtins plus a user command `ex` (handler 10). -/
def bStateP : RegState :=
  (register builtinsState (.nStr "ex") .noPar none none 10 "ex" []).1

def bCmdP : Cmd := bStateP.commands.getD 4 dummyCmd

/-- Builtins, `ex`, and a subcommand `sub` of `ex` (handler 20). -/
def bStatePC : RegState :=
  (register bStateP (.nStr "sub") (.parC bCmdP) none none 20 "sub" []).1

/-! ### Association-list lemmas -/

theorem alGet_mem {α β : Type} [DecidableEq α] :
    ∀ (l : List (α × β)) (k : α) (v : β), alGet l k = some v → (k, v) ∈ l := by
  intro l
  induction l with
  | nil => intro k v h; simp [alGet] at h
  | cons p rest ih =>
    obtain ⟨a, b⟩ := p
    intro k v h
    by_cases hp : a = k
    · subst hp
      simp [alGet] at h
      subst h
      exact List.mem_cons_self _ _
    · simp [alGet, hp] at h
      exact List.mem_cons_of_mem _ (ih k v h)

theorem alGet_append_right {α β : Type} [DecidableEq α] :
    ∀ (l : List (α × β)) (k : α) (v : β), alHas l k = false →
      alGet (l ++ [(k, v)]) k = some v := by
  intro l
  induction l with
  | nil => intro k v _; simp [alGet]
  | cons p rest ih =>
    intro k v h
    by_cases hp : p.1 = k
    · exfalso
      simp [alHas, alGet, hp] at h
    · simp [alHas, alGet, hp] at h ⊢
      exact ih k v (by simp [alHas, h])

theorem alDel_of_not_has {α β : Type} [DecidableEq α] :
    ∀ (l : List (α × β)) (k : α), alHas l k = false → alDel l k = l := by
  intro l
  induction l with
  | nil => intro k _; rfl
  | cons p rest ih =>
    obtain ⟨a, b⟩ := p
    intro k h
    by_cases hp : a = k
    · exfalso; simp [alHas, alGet, hp] at h
    · have h' : alHas rest k = false := by
        simp [alHas, alGet, hp] at h
        simp [alHas, h]
      have hr := ih k h'
      unfold alDel at hr ⊢
      rw [List.filter_cons]
      simp [hp, hr]

theorem alDel_append_last {α β : Type} [DecidableEq α]
    (l : List (α × β)) (k : α) (v : β) (h : alHas l k = false) :
    alDel (l ++ [(k, v)]) k = l := by
  unfold alDel
  rw [List.filter_append]
  have h1 : (alDel l k) = l := alDel_of_not_has l k h
  unfold alDel at h1
  rw [h1]
  simp

theorem alGet_alSet_self {α β : Type} [DecidableEq α] :
    ∀ (l : List (α × β)) (k : α) (v : β), alGet (alSet l k v) k = some v := by
  intro l
  induction l with
  | nil => intro k v; simp [alSet, alGet]
  | cons p rest ih =>
    intro k v
    by_cases hp : p.1 = k
    · simp [alSet, hp, alGet]
    · simp [alSet, hp, alGet]
      exact ih k v

theorem alGet_alSet_ne {α β : Type} [DecidableEq α] :
    ∀ (l : List (α × β)) (k k' : α) (v : β), k' ≠ k →
      alGet (alSet l k v) k' = alGet l k' := by
  intro l
  induction l with
  | nil =>
    intro k k' v h
    simp [alSet, alGet]
    exact fun hh => absurd hh.symm h
  | cons p rest ih =>
    obtain ⟨a, b⟩ := p
    intro k k' v h
    by_cases hp : a = k
    · have hk : ¬ k = k' := fun hh => h hh.symm
      have hp' : ¬ a = k' := by rw [hp]; exact hk
      simp [alSet, hp, alGet, hk, hp']
    · simp [alSet, hp, alGet]
      by_cases hq : a = k'
      · simp [hq]
      · simp [hq]
        exact ih k k' v h

theorem alSet_keys_of_has {α β : Type} [DecidableEq α] :
    ∀ (l : List (α × β)) (k : α) (v : β), alHas l k = true →
      (alSet l k v).map Prod.fst = l.map Prod.fst := by
  intro l
  induction l with
  | nil => intro k v h; simp [alHas, alGet] at h
  | cons p rest ih =>
    intro k v h
    by_cases hp : p.1 = k
    · simp [alSet, hp]
    · simp [alHas, alGet, hp] at h
      simp [alSet, hp]
      exact ih k v (by simp [alHas, h])

theorem alHas_iff_mem_keys {α β : Type} [DecidableEq α] :
    ∀ (l : List (α × β)) (k : α), alHas l k = true ↔ k ∈ l.map Prod.fst := by
  intro l
  induction l with
  | nil => intro k; simp [alHas, alGet]
  | cons p rest ih =>
    obtain ⟨a, b⟩ := p
    intro k
    by_cases hp : a = k
    · subst hp; simp [alHas, alGet]
    · have hrest := ih k
      simp only [alHas, alGet, hp, if_false, List.map_cons, List.mem_cons] at hrest ⊢
      rw [hrest]
      constructor
      · intro hh; exact Or.inr hh
      · intro hh
        cases hh with
        | inl hh => exact absurd hh.symm hp
        | inr hh => exact hh

theorem alHas_alSet_other {α β : Type} [DecidableEq α]
    (l : List (α × β)) (k k' : α) (v : β) (h : k' ≠ k) :
    alHas (alSet l k v) k' = alHas l k' := by
  unfold alHas
  rw [alGet_alSet_ne l k k' v h]

theorem cleanupSub_alSetdefault (sm : List (Nat × List (String × Nat))) (c : Cmd)
    (h : ∀ pr ∈ sm, pr.2 ≠ []) :
    cleanupSub (alSetdefault sm c.cid []) (some c) = sm := by
  unfold alSetdefault
  by_cases hh : alHas sm c.cid
  · simp [hh, cleanupSub]
    intro hg
    exact absurd rfl (h _ (alGet_mem sm c.cid [] hg))
  · simp [hh, cleanupSub]
    rw [alGet_append_right sm c.cid [] (by simpa using hh)]
    simp
    exact alDel_append_last sm c.cid [] (by simpa using hh)

/-! ### Lemmas about the `BoolMapper` toggle loop -/

/-- Without a variadic-keyword catch-all, a successful run of the toggle
loop never adds or removes a key. -/
theorem boolLoop_keys :
    ∀ (parse : List String) (flags res : List (String × Value)),
      boolLoop false flags parse = .ok res →
      res.map Prod.fst = flags.map Prod.fst := by
  intro parse
  induction parse with
  | nil =>
    intro flags res h
    simp [boolLoop] at h
    rw [h]
  | cons a rest ih =>
    intro flags res h
    by_cases ha : alHas flags a
    · simp [boolLoop, ha] at h
      have := ih _ _ h
      rw [this]
      exact alSet_keys_of_has flags a _ ha
    · simp [Bool.not_eq_true] at ha
      simp [boolLoop, ha] at h

/-- Without a variadic-keyword catch-all, a parsed flag name outside the
default map makes the loop fail with `UnknownFlag`. -/
theorem boolLoop_unknown :
    ∀ (parse : List String) (flags : List (String × Value)) (a : String),
      a ∈ parse → alHas flags a = false →
      boolLoop false flags parse = .error .unknownFlag := by
  intro parse
  induction parse with
  | nil => intro flags a h _; simp at h
  | cons x rest ih =>
    intro flags a h ha
    by_cases hx : alHas flags x
    · have hax : a ≠ x := fun he => by rw [he, hx] at ha; cases ha
      have hmem : a ∈ rest := by
        cases h with
        | head => exact absurd rfl hax
        | tail _ hh => exact hh
      simp [boolLoop, hx]
      exact ih _ a hmem (by rw [alHas_alSet_other flags x a _ hax]; exact ha)
    · simp [Bool.not_eq_true] at hx
      simp [boolLoop, hx]

/-! ### Lemmas about `StringMapper._parse_iter` -/

/-- A token list without a single flag token parses to itself, all marked
non-flag. -/
theorem parseIter_no_flags (pfx setTok : String) (kebab : Bool) :
    ∀ (args : List String), (∀ a ∈ args, pyStartsWith a pfx = false) →
      parseIter pfx setTok kebab args = .ok (args.map (fun a => (a, false))) := by
  intro args
  induction args with
  | nil => intro _; simp [parseIter]
  | cons a rest ih =>
    intro h
    have ha := h a (List.mem_cons_self _ _)
    have hrest := ih (fun x hx => h x (List.mem_cons_of_mem _ hx))
    unfold parseIter
    rw [ha]
    simp [hrest, Except.map]

/-! ### Lemmas about `Command.__call__` -/

/-- If the star-stripped first token is a key of the node's subcommand
dict, dispatch delegates the remaining tokens to that child, entering it
in no-subcommand mode exactly when the token ends in `*`. -/
theorem dispatch_delegate (σ : RegState) (p d : Cmd) (m : List (String × Nat))
    (t : String) (rest : List String)
    (hm : alGet σ.subMap p.cid = some m)
    (hkey : alGet m (subKey t) = some d.cid)
    (hfind : findCmd σ d.cid = some d) :
    dispatch σ (t :: rest) p false = dispatch σ rest d (pyEndsWith t "*") := by
  have hsub : hasSubcommandB σ p t = true := by
    unfold hasSubcommandB childMap
    rw [hm]
    show (alHas m t || pyEndsWith t "*" && alHas m (pyDropLast t)) = true
    by_cases hstar : pyEndsWith t "*" = true
    · have hdl : alHas m (pyDropLast t) = true := by
        unfold alHas
        unfold subKey at hkey
        rw [if_pos hstar] at hkey
        rw [hkey]
        rfl
      rw [hstar, hdl]
      simp
    · have hdt : alHas m t = true := by
        unfold alHas
        unfold subKey at hkey
        rw [if_neg hstar] at hkey
        rw [hkey]
        rfl
      rw [hdt]
      simp
  have hcid : subcommandCid σ p t = some d.cid := by
    unfold subcommandCid childMap
    rw [hm]
    simpa using hkey
  simp [dispatch, hsub, hcid, hfind]

/-- A node entered in no-subcommand mode always runs its own mapper and
handler on the full token list. -/
theorem dispatch_noSub (σ : RegState) (d : Cmd) :
    ∀ (toks : List String), dispatch σ toks d true = mapperResult d toks := by
  intro toks
  cases toks with
  | nil => simp [dispatch]
  | cons t rest => simp [dispatch]

/-! ### Lemmas about the store model -/

theorem getD_set_ne {α : Type} :
    ∀ (l : List α) (i j : Nat) (x d : α), j ≠ i →
      (l.set i x).getD j d = l.getD j d := by
  intro l
  induction l with
  | nil => intro i j x d _; simp
  | cons a rest ih =>
    intro i j x d h
    cases i with
    | zero =>
      cases j with
      | zero => exact absurd rfl h
      | succ j' => simp [List.getD_cons_succ]
    | succ i' =>
      cases j with
      | zero => simp [List.getD_cons_zero]
      | succ j' =>
        show (rest.set i' x).getD j' d = rest.getD j' d
        exact ih i' j' x d (fun hh => h (by rw [hh]))

theorem getD_set_self {α : Type} :
    ∀ (l : List α) (i : Nat) (x d : α), i < l.length →
      (l.set i x).getD i d = x := by
  intro l
  induction l with
  | nil => intro i x d h; simp at h
  | cons a rest ih =>
    intro i x d h
    cases i with
    | zero => simp [List.getD_cons_zero]
    | succ i' =>
      show (rest.set i' x).getD i' d = x
      exact ih i' x d (by simpa using h)

theorem getD_append_lt {α : Type} :
    ∀ (l l2 : List α) (j : Nat) (d : α), j < l.length →
      (l ++ l2).getD j d = l.getD j d := by
  intro l
  induction l with
  | nil => intro l2 j d h; simp at h
  | cons a rest ih =>
    intro l2 j d h
    cases j with
    | zero => simp [List.getD_cons_zero]
    | succ j' =>
      show (rest ++ l2).getD j' d = rest.getD j' d
      exact ih l2 j' d (by simpa using h)

theorem getD_append_self {α : Type} :
    ∀ (l : List α) (x d : α), (l ++ [x]).getD l.length d = x := by
  intro l
  induction l with
  | nil => intro x d; simp
  | cons a rest ih =>
    intro x d
    show (rest ++ [x]).getD rest.length d = x
    exact ih x d

/-- The toggle loop only writes the dict it was given. -/
theorem heapLoop_readD_ne (hk : Bool) (a : Nat) :
    ∀ (parse : List String) (st : Store) (b : Nat), b ≠ a →
      readD (heapLoop hk a st parse).1 b = readD st b := by
  intro parse
  induction parse with
  | nil => intro st b _; simp [heapLoop]
  | cons x rest ih =>
    intro st b h
    simp only [heapLoop]
    by_cases hc : (!hk && !alHas (readD st a) x) = true
    · rw [if_pos hc]
    · rw [if_neg hc]
      rw [ih _ b h]
      unfold readD writeD
      exact getD_set_ne _ a b _ _ h

theorem heapLoop_length (hk : Bool) (a : Nat) :
    ∀ (parse : List String) (st : Store),
      (heapLoop hk a st parse).1.dicts.length = st.dicts.length := by
  intro parse
  induction parse with
  | nil => intro st; simp [heapLoop]
  | cons x rest ih =>
    intro st
    simp only [heapLoop]
    by_cases hc : (!hk && !alHas (readD st a) x) = true
    · rw [if_pos hc]
    · rw [if_neg hc]
      rw [ih]
      simp [writeD]

/-- The in-place toggle loop computes exactly what the pure `boolLoop`
computes on the dict it was pointed at. -/
theorem heapLoop_spec (hk : Bool) (a : Nat) :
    ∀ (parse : List String) (st : Store), a < st.dicts.length →
      (∀ res, boolLoop hk (readD st a) parse = .ok res →
        (heapLoop hk a st parse).2 = none ∧ readD (heapLoop hk a st parse).1 a = res)
      ∧ (∀ e, boolLoop hk (readD st a) parse = .error e →
        (heapLoop hk a st parse).2 = some e) := by
  intro parse
  induction parse with
  | nil =>
    intro st _
    constructor
    · intro res h
      simp [boolLoop] at h
      refine ⟨by simp [heapLoop], ?_⟩
      show readD (heapLoop hk a st []).1 a = res
      rw [show (heapLoop hk a st []).1 = st from rfl]
      exact h
    · intro e h
      simp [boolLoop] at h
  | cons x rest ih =>
    intro st ha
    by_cases hc : (!hk && !alHas (readD st a) x) = true
    · have e1 : boolLoop hk (readD st a) (x :: rest) = .error .unknownFlag := by
        simp only [boolLoop]
        rw [if_pos hc]
      have e2 : heapLoop hk a st (x :: rest) = (st, some .unknownFlag) := by
        simp only [heapLoop]
        rw [if_pos hc]
      rw [e1, e2]
      constructor
      · intro res h
        cases h
      · intro e h
        cases h
        rfl
    · have hst' : a < ((writeD st a (alSet (readD st a) x (Value.bool (toggleVal (readD st a) x)))).dicts.length) := by
        simp [writeD]
        exact ha
      have hread : readD (writeD st a (alSet (readD st a) x (Value.bool (toggleVal (readD st a) x)))) a
          = alSet (readD st a) x (Value.bool (toggleVal (readD st a) x)) := by
        unfold readD writeD
        exact getD_set_self _ a _ _ ha
      have hrec := ih (writeD st a (alSet (readD st a) x (Value.bool (toggleVal (readD st a) x)))) hst'
      rw [hread] at hrec
      have e1 : boolLoop hk (readD st a) (x :: rest) =
          boolLoop hk (alSet (readD st a) x (Value.bool (toggleVal (readD st a) x))) rest := by
        simp only [boolLoop]
        rw [if_neg hc]
      have e2 : heapLoop hk a st (x :: rest) =
          heapLoop hk a (writeD st a (alSet (readD st a) x (Value.bool (toggleVal (readD st a) x)))) rest := by
        simp only [heapLoop]
        rw [if_neg hc]
      rw [e1, e2]
      exact hrec

/-- `boolCallH` in terms of the loop it runs on the freshly copied dict. -/
theorem boolCallH_eq (st : Store) (m : BoolMapperH) (args : List String) :
    boolCallH st m args =
      ((heapLoop m.hasKw st.dicts.length ⟨st.dicts ++ [readD st m.defaultsAddr]⟩
          ((args.filter (fun x => pyStartsWith x m.pfx)).map (parseArgName m.pfx m.kebab))).1,
        match (heapLoop m.hasKw st.dicts.length ⟨st.dicts ++ [readD st m.defaultsAddr]⟩
          ((args.filter (fun x => pyStartsWith x m.pfx)).map (parseArgName m.pfx m.kebab))).2 with
        | none => .ok (args.filter (fun x => !pyStartsWith x m.pfx), st.dicts.length)
        | some e => .error e) := by
  unfold boolCallH allocD
  rcases hh : heapLoop m.hasKw st.dicts.length ⟨st.dicts ++ [readD st m.defaultsAddr]⟩
      ((args.filter (fun x => pyStartsWith x m.pfx)).map (parseArgName m.pfx m.kebab))
    with ⟨st2, oe⟩
  simp only [hh]
  cases oe <;> rfl

/-- One call never changes the contents of the mapper's stored defaults
dict: the loop mutates only the fresh copy made by `flag_defaults`. -/
theorem boolCallH_defaults_preserved (st : Store) (m : BoolMapperH) (args : List String)
    (h : m.defaultsAddr < st.dicts.length) :
    readD (boolCallH st m args).1 m.defaultsAddr = readD st m.defaultsAddr := by
  rw [boolCallH_eq]
  have hne : m.defaultsAddr ≠ st.dicts.length := Nat.ne_of_lt h
  rw [heapLoop_readD_ne m.hasKw st.dicts.length _ _ m.defaultsAddr hne]
  unfold readD
  exact getD_append_lt st.dicts [readD st m.defaultsAddr] m.defaultsAddr [] h

theorem boolCallH_grows (st : Store) (m : BoolMapperH) (args : List String) :
    (boolCallH st m args).1.dicts.length = st.dicts.length + 1 := by
  rw [boolCallH_eq]
  show (heapLoop _ _ _ _).1.dicts.length = _
  rw [heapLoop_length]
  simp

/-- The observable behaviour of one call is the pure `boolMapperCall` of
the stored defaults contents. -/
theorem boolCallH_observe (st : Store) (m : BoolMapperH) (args : List String) :
    observeBool (boolCallH st m args) =
      boolMapperCall m.pfx m.kebab m.hasKw (readD st m.defaultsAddr) args := by
  have hlen : st.dicts.length < (Store.mk (st.dicts ++ [readD st m.defaultsAddr])).dicts.length := by
    simp
  have hcopy : readD ⟨st.dicts ++ [readD st m.defaultsAddr]⟩ st.dicts.length
      = readD st m.defaultsAddr := by
    unfold readD
    exact getD_append_self st.dicts (readD st m.defaultsAddr) []
  obtain ⟨hok, herr⟩ := heapLoop_spec m.hasKw st.dicts.length
    ((args.filter (fun x => pyStartsWith x m.pfx)).map (parseArgName m.pfx m.kebab))
    ⟨st.dicts ++ [readD st m.defaultsAddr]⟩ hlen
  rw [hcopy] at hok herr
  rw [boolCallH_eq]
  unfold observeBool boolMapperCall
  cases hb : boolLoop m.hasKw (readD st m.defaultsAddr)
      ((args.filter (fun x => pyStartsWith x m.pfx)).map (parseArgName m.pfx m.kebab)) with
  | ok res =>
    obtain ⟨h2, h1⟩ := hok res hb
    simp [h2, h1, hb, Except.map]
  | error e =>
    have h2 := herr e hb
    simp [h2, hb, Except.map]

/-! ### Lemmas about `register` -/

/-- Any caught `CommandException` leaves the registry exactly as it was,
provided no parent was already mapped to an empty subcommand dict. -/
theorem registerCore_caught_preserves (σ : RegState) (na : NameArg) (pc : Option Cmd)
    (mOpt : Option Mapper) (onLoad : Option LoadB) (func : Nat)
    (funcName : String) (sig : List Param) (e : CmdErr)
    (hmem : ∀ pr ∈ σ.subMap, pr.2 ≠ [])
    (hout : (registerCore σ na pc mOpt onLoad func funcName sig).2 = .caught e) :
    (registerCore σ na pc mOpt onLoad func funcName sig).1 = σ := by
  simp only [registerCore] at hout ⊢
  cases hr : regChecks (resolvedNames na funcName) (conflictMap (setdefaultSub σ pc) pc) onLoad with
  | none => simp only [hr] at hout; simp at hout
  | some rf =>
    cases rf with
    | escape => simp only [hr] at hout; simp at hout
    | cmdExc e2 =>
      simp only [hr]
      cases pc with
      | none => simp [setdefaultSub, cleanupSub]
      | some c =>
        have hcl := cleanupSub_alSetdefault σ.subMap c hmem
        simp [setdefaultSub, cleanupSub] at hcl ⊢
        simp [hcl]

/-- A successful registration appends exactly the new command to
`_commands`, whatever else it updates. -/
theorem registerCore_ok_appends (σ : RegState) (na : NameArg) (pc : Option Cmd)
    (mOpt : Option Mapper) (onLoad : Option LoadB) (func : Nat)
    (funcName : String) (sig : List Param) (cid : Nat)
    (hout : (registerCore σ na pc mOpt onLoad func funcName sig).2 = .ok cid) :
    ∃ c : Cmd, c.cid = cid ∧
      (registerCore σ na pc mOpt onLoad func funcName sig).1.commands
        = σ.commands ++ [c] := by
  simp only [registerCore] at hout ⊢
  cases hr : regChecks (resolvedNames na funcName) (conflictMap (setdefaultSub σ pc) pc) onLoad with
  | some rf =>
    cases rf with
    | escape => simp only [hr] at hout; simp at hout
    | cmdExc e2 => simp only [hr] at hout; simp at hout
  | none =>
    simp only [hr] at hout ⊢
    simp at hout
    refine ⟨{ cid := (setdefaultSub σ pc).nextId, func := func,
              name := (resolvedNames na funcName).headD "",
              names := resolvedNames na funcName, parentId := pc.map Cmd.cid,
              parentPfx := parentPfxOf pc,
              fullnameStr := parentPfxOf pc ++ (resolvedNames na funcName).headD "",
              sig := sig, mapper := mOpt.getD .identM }, ?_, ?_⟩
    · exact hout
    · cases pc <;> simp [commitReg, setdefaultSub]

/-- `register` fails with `InvalidName` exactly when one of the resolved
names breaks the `_valid_command` rule (unless the parent argument is a
truthy non-`Command`, which is rejected first). -/
theorem register_invalidName_iff (σ : RegState) (na : NameArg) (pa : ParentArg)
    (mOpt : Option Mapper) (onLoad : Option LoadB) (func : Nat)
    (funcName : String) (sig : List Param)
    (hpa : pa ≠ .badPar) :
    ((register σ na pa mOpt onLoad func funcName sig).2 = .caught .invalidName
      ↔ (resolvedNames na funcName).any (fun n => !validCommandB n) = true) := by
  have hchar : ∀ (cmdMap : List (String × Nat)),
      (regChecks (resolvedNames na funcName) cmdMap onLoad = some (.cmdExc .invalidName)
        ↔ (resolvedNames na funcName).any (fun n => !validCommandB n) = true) := by
    intro cmdMap
    unfold regChecks
    constructor
    · intro h
      by_contra hc
      rw [if_neg hc] at h
      split at h
      · simp at h
      · split at h <;> simp_all
    · intro h
      rw [if_pos h]
  have core : ∀ (pc : Option Cmd),
      ((registerCore σ na pc mOpt onLoad func funcName sig).2 = .caught .invalidName
        ↔ (resolvedNames na funcName).any (fun n => !validCommandB n) = true) := by
    intro pc
    rw [← hchar (conflictMap (setdefaultSub σ pc) pc)]
    simp only [registerCore]
    cases hr : regChecks (resolvedNames na funcName) (conflictMap (setdefaultSub σ pc) pc) onLoad with
    | none => simp [hr]
    | some rf =>
      cases rf with
      | cmdExc e2 => simp [hr]
      | escape => simp [hr]
  cases pa with
  | badPar => exact absurd rfl hpa
  | noPar => exact core none
  | parC c => exact core (some c)

theorem toggleVal_of_get (flags : List (String × Value)) (a : String) (v : Value)
    (h : alGet flags a = some v) : toggleVal flags a = !truthy v := by
  unfold toggleVal
  rw [h]

/-- A single step of the toggle loop on a declared flag. -/
theorem boolLoop_step_mem (hk : Bool) (flags : List (String × Value)) (a : String)
    (rest : List String) (h : alHas flags a = true) :
    boolLoop hk flags (a :: rest)
      = boolLoop hk (alSet flags a (Value.bool (toggleVal flags a))) rest := by
  simp only [boolLoop]
  rw [h]
  simp

/-! ### Concrete handler signatures used by counterexamples and witnesses -/

/-- `def f(x, *, a=False)`: one ordinary positional parameter and one
keyword-only boolean. -/
def sigC3 : List Param :=
  [⟨"x", .positional, none⟩, ⟨"a", .keywordOnly, some (Value.bool false)⟩]

/-- `def f(*, b)`: exactly one required keyword-only parameter. -/
def sigC6 : List Param := [⟨"b", .keywordOnly, none⟩]

/-- `def f(*, a=False)`. -/
def sigC7 : List Param := [⟨"a", .keywordOnly, some (Value.bool false)⟩]

/-! ### The claims -/

/-- C1: the claim as stated is false. `on_load` raising an exception that
is not a `CommandException` skips the cleanup at lines 334-336, so the
failed registration of `c` under `p` leaves `_subcommand_map[p]` as a
leaked empty dict: `p.has_subcommands` flips from false to true even
though the registration failed, `lookup` still finds nothing and the
command list is unchanged. -/
theorem C1_counterexample :
    stLeak.2 = RegOutcome.escaped
    ∧ hasSubcommandsB stLeak.1 cmdP = true
    ∧ hasSubcommandsB stP cmdP = false
    ∧ ¬ stLeak.1.subMap = stP.subMap
    ∧ lookup stLeak.1 "c" = none
    ∧ helpListing stLeak.1 = helpListing stP := by decide

/-- C1 (amended): registration is atomic for every failure reported as a
caught `CommandException` (invalid name, invalid parent, naming conflict,
`on_load` returning false or raising a `CommandException`): the whole
registry state — command list, name map and children map — is exactly as
before the attempt, provided no parent was already mapped to a leaked
empty child dict. When `on_load` raises any other exception, the children
map may retain an empty entry for the parent (the counterexample). -/
theorem C1_theorem (σ : RegState) (na : NameArg) (pa : ParentArg)
    (mOpt : Option Mapper) (onLoad : Option LoadB) (func : Nat)
    (funcName : String) (sig : List Param) (e : CmdErr)
    (hwf : noEmptyChildDicts σ = true)
    (hout : (register σ na pa mOpt onLoad func funcName sig).2 = .caught e) :
    (register σ na pa mOpt onLoad func funcName sig).1 = σ := by
  have hmem : ∀ pr ∈ σ.subMap, pr.2 ≠ [] := by
    intro pr hpr he
    have hh := (List.all_eq_true.mp hwf) pr hpr
    rw [he] at hh
    simp at hh
  cases pa with
  | badPar => rfl
  | noPar => exact registerCore_caught_preserves σ na none mOpt onLoad func funcName sig e hmem hout
  | parC c => exact registerCore_caught_preserves σ na (some c) mOpt onLoad func funcName sig e hmem hout

/-- C1 witness: a registration under `p` whose `on_load` returns false is
rolled back completely. -/
theorem C1_witness :
    noEmptyChildDicts stP = true
    ∧ (register stP (.nStr "c") (.parC cmdP) none (some .retFalse) 20 "c" []).2
        = RegOutcome.caught CmdErr.loadFailed
    ∧ (register stP (.nStr "c") (.parC cmdP) none (some .retFalse) 20 "c" []).1 = stP :=
  ⟨by decide, by decide,
    C1_theorem stP (.nStr "c") (.parC cmdP) none (some .retFalse) 20 "c" []
      CmdErr.loadFailed (by decide) (by decide)⟩

/-- C2: the claim as stated is false. With child `c` (handler 20) under
`p` (handler 10), dispatching `["c*", "x"]` on `p` in normal mode DOES
delegate to `c`: `c`'s handler runs with `"x"`, not `p`'s. -/
theorem C2_counterexample :
    dispatch stPCX ["c*", "x"] cmdP false = .ok ⟨20, ["x"], []⟩
    ∧ cmdC.func = 20
    ∧ cmdP.func = 10
    ∧ ¬ dispatch stPCX ["c*", "x"] cmdP false = .ok ⟨cmdP.func, ["x"], []⟩ := by decide

/-- C2 (amended): dispatching `["c*", "x"]` on `p` delegates to the child
`c`, entering it in no-subcommand mode: `c`'s own mapper and handler run
on the remaining tokens, and `c` does not descend further even when the
next token names one of `c`'s children. The trailing `*` disables descent
one level down (at the starred command), not at `p`. -/
theorem C2_theorem (σ : RegState) (p d : Cmd) (m : List (String × Nat))
    (t : String) (rest : List String)
    (hm : alGet σ.subMap p.cid = some m)
    (hstar : pyEndsWith t "*" = true)
    (hkey : alGet m (pyDropLast t) = some d.cid)
    (hfind : findCmd σ d.cid = some d) :
    dispatch σ (t :: rest) p false = mapperResult d rest := by
  have hkey2 : alGet m (subKey t) = some d.cid := by
    unfold subKey
    rw [if_pos hstar]
    exact hkey
  rw [dispatch_delegate σ p d m t rest hm hkey2 hfind, hstar]
  exact dispatch_noSub σ d rest

/-- C2 witness: in the registry `p` → `c` → `x`, the token `"c*"` runs
`c`'s handler on `["x"]` even though `"x"` names a child of `c`. -/
theorem C2_witness :
    alGet stPCX.subMap cmdP.cid = some [("c", 1)]
    ∧ pyEndsWith "c*" "*" = true
    ∧ alGet [("c", (1 : Nat))] (pyDropLast "c*") = some cmdC.cid
    ∧ findCmd stPCX cmdC.cid = some cmdC
    ∧ alGet stPCX.subMap cmdC.cid = some [("x", 2)]
    ∧ dispatch stPCX ["c*", "x"] cmdP false = mapperResult cmdC ["x"]
    ∧ mapperResult cmdC ["x"] = .ok ⟨20, ["x"], []⟩ :=
  ⟨by decide, by decide, by decide, by decide, by decide,
    C2_theorem stPCX cmdP cmdC [("c", 1)] "c*" ["x"]
      (by decide) (by decide) (by decide) (by decide),
    by decide⟩

/-- C3: the claim as stated is false. The `BoolMapper` default map is
built from ALL parameters (`self.params.values()` at line 223), not only
keyword-only ones: for `def f(x, *, a=False)` the positional name `x` is
seeded into the map and `-x` is accepted as a flag instead of failing
with `UnknownFlag`. -/
theorem C3_counterexample :
    alHas (boolFlagDefaults sigC3) "x" = true
    ∧ hasKwargs sigC3 = false
    ∧ (sigC3.getD 0 ⟨"", .positional, none⟩).kind = ParamKind.positional
    ∧ boolMapperCall "-" true (hasKwargs sigC3) (boolFlagDefaults sigC3) ["-x"]
        = .ok ([], [("x", Value.bool true), ("a", Value.bool false)])
    ∧ ¬ boolMapperCall "-" true (hasKwargs sigC3) (boolFlagDefaults sigC3) ["-x"]
        = .error CmdErr.unknownFlag := by decide

/-- C3 (amended): the keyword map starts from the defaults of ALL of the
handler's declared parameters (missing default ⇒ false). With no
variadic-keyword parameter, a successful mapping's keyword map has
exactly the declared parameter names (of every kind) as keys, and a flag
whose parsed name is not any declared parameter name fails with
`UnknownFlag`. -/
theorem C3_theorem (sig : List Param) (pfx : String) (kebab : Bool) (args : List String)
    (hkw : hasKwargs sig = false) :
    (∀ pos kw, boolMapperCall pfx kebab (hasKwargs sig) (boolFlagDefaults sig) args
        = .ok (pos, kw) → kw.map Prod.fst = sig.map Param.name)
    ∧ (∀ a, a ∈ (args.filter (fun x => pyStartsWith x pfx)).map (parseArgName pfx kebab)
        → ¬ a ∈ sig.map Param.name
        → boolMapperCall pfx kebab (hasKwargs sig) (boolFlagDefaults sig) args
            = .error .unknownFlag) := by
  rw [hkw]
  have hkeys : (boolFlagDefaults sig).map Prod.fst = sig.map Param.name := by
    simp [boolFlagDefaults]
  constructor
  · intro pos kw hok
    simp only [boolMapperCall] at hok
    cases hb : boolLoop false (boolFlagDefaults sig)
        ((args.filter (fun x => pyStartsWith x pfx)).map (parseArgName pfx kebab)) with
    | ok res =>
      rw [hb] at hok
      simp [Except.map] at hok
      rw [← hok.2, boolLoop_keys _ _ _ hb, hkeys]
    | error e =>
      rw [hb] at hok
      simp [Except.map] at hok
  · intro a hmem hnot
    have hfa : alHas (boolFlagDefaults sig) a = false := by
      cases hh : alHas (boolFlagDefaults sig) a with
      | false => rfl
      | true =>
        exfalso
        apply hnot
        have hm2 := (alHas_iff_mem_keys (boolFlagDefaults sig) a).mp hh
        rw [hkeys] at hm2
        exact hm2
    simp only [boolMapperCall]
    rw [boolLoop_unknown _ _ a hmem hfa]
    rfl

/-- C3 witness: for `def f(x, *, a=False)` mapping `["-x"]` succeeds and
its keyword map's keys are all of the declared parameter names. -/
theorem C3_witness :
    hasKwargs sigC3 = false
    ∧ ([("x", Value.bool true), ("a", Value.bool false)].map Prod.fst
        = sigC3.map Param.name) :=
  ⟨by decide,
    (C3_theorem sigC3 "-" true ["-x"] (by decide)).1 [] [("x", Value.bool true), ("a", Value.bool false)] (by decide)⟩

/-- C4: the claim as stated is false. Subcommand resolution in
`Command.__call__` / `has_subcommand` does no case folding: with child
`c` under `p`, the first token `"C"` — whose case-folded, star-stripped
form equals `"c"` — is NOT delegated; `p`'s own handler runs on the full
token list. -/
theorem C4_counterexample :
    asciiLower (subKey "C") = "c"
    ∧ alGet stPCX.subMap cmdP.cid = some [("c", 1)]
    ∧ dispatch stPCX ["C", "x"] cmdP false = .ok ⟨10, ["C", "x"], []⟩
    ∧ ¬ dispatch stPCX ["C", "x"] cmdP false = .ok ⟨cmdC.func, ["x"], []⟩ := by decide

/-- C4 (amended): during dispatch on a node not entered in no-subcommand
mode, the first token is matched against the children's bare names and
aliases after stripping a trailing `*` but with NO case folding: whenever
the star-stripped token exactly equals a key of the node's child map,
dispatch delegates the remaining tokens to that child (entering it in
no-subcommand mode iff the token ended in `*`). -/
theorem C4_theorem (σ : RegState) (p d : Cmd) (m : List (String × Nat))
    (t : String) (rest : List String)
    (hm : alGet σ.subMap p.cid = some m)
    (hkey : alGet m (subKey t) = some d.cid)
    (hfind : findCmd σ d.cid = some d) :
    dispatch σ (t :: rest) p false = dispatch σ rest d (pyEndsWith t "*") :=
  dispatch_delegate σ p d m t rest hm hkey hfind

/-- C4 witness: the exactly-matching token `"c"` delegates to `c`. -/
theorem C4_witness :
    alGet stPCX.subMap cmdP.cid = some [("c", 1)]
    ∧ alGet [("c", (1 : Nat))] (subKey "c") = some cmdC.cid
    ∧ findCmd stPCX cmdC.cid = some cmdC
    ∧ dispatch stPCX ["c", "x"] cmdP false = dispatch stPCX ["x"] cmdC (pyEndsWith "c" "*") :=
  ⟨by decide, by decide, by decide,
    C4_theorem stPCX cmdP cmdC [("c", 1)] "c" ["x"] (by decide) (by decide) (by decide)⟩

/-- C5: the claim as stated is false. `_valid_command` checks only
non-emptiness, single-token shape, ASCII and the absence of `*`; it does
NOT reject uppercase letters or `=`: registering the name `"A"` (and
`"a=b"`) succeeds instead of failing with `InvalidName`. -/
theorem C5_counterexample :
    validCommandB "A" = true
    ∧ (register emptyState (.nStr "A") .noPar none none 7 "A" []).2 = RegOutcome.ok 0
    ∧ validCommandB "a=b" = true
    ∧ (register emptyState (.nStr "a=b") .noPar none none 7 "f" []).2 = RegOutcome.ok 0 := by
  decide

/-- C5 (amended): unless the parent argument is a truthy non-`Command`
(rejected first as an invalid parent), `register` fails with
`InvalidName` exactly when some resolved name or alias violates
`_valid_command`: empty, more than one whitespace-separated token
(including the separator controls `\x1c`-`\x1f`), non-ASCII, or
containing `*`. Uppercase letters, `=`, and surrounding whitespace that
still leaves a single token are all accepted. -/
theorem C5_theorem (σ : RegState) (na : NameArg) (pa : ParentArg)
    (mOpt : Option Mapper) (onLoad : Option LoadB) (func : Nat)
    (funcName : String) (sig : List Param)
    (hpa : pa ≠ .badPar) :
    (((register σ na pa mOpt onLoad func funcName sig).2 = .caught .invalidName)
      ↔ ((resolvedNames na funcName).any (fun n => !validCommandB n) = true))
    ∧ validCommandB "a b" = false
    ∧ validCommandB "a\x1cb" = false
    ∧ validCommandB "" = false
    ∧ validCommandB "a*" = false
    ∧ validCommandB "é" = false
    ∧ validCommandB "A" = true
    ∧ validCommandB "a=b" = true
    ∧ validCommandB " a" = true :=
  ⟨register_invalidName_iff σ na pa mOpt onLoad func funcName sig hpa,
    by decide, by decide, by decide, by decide, by decide, by decide, by decide, by decide⟩

/-- C5 witness: registering the two-token name `"a b"` fails with
`InvalidName`. -/
theorem C5_witness :
    (register emptyState (.nStr "a b") .noPar none none 7 "f" []).2
      = RegOutcome.caught CmdErr.invalidName :=
  (C5_theorem emptyState (.nStr "a b") .noPar none none 7 "f" []
    (by decide)).1.mpr (by decide)

/-- A flag-free parsed token list contributes nothing to the flag dict. -/
theorem filterMap_noflag (ts : List String) (setTok : String) :
    ((ts.map (fun a => (a, false))).filterMap
      (fun pr => if pr.2 = true then some (pySplit1 pr.1 setTok) else none)) = [] := by
  simp

/-- C6: confirmed. For a handler whose only keyword-only parameter is the
required `b` (no default, no variadic-keyword), `StringMapper` rejects a
token list with zero flag tokens with `MissingRequiredFlags`, while both
`-b v` and `-b=v` succeed with keyword map `{b: "v"}` and no positional
arguments. -/
theorem C6_theorem (sig : List Param) (args : List String)
    (hkw : hasKwargs sig = false)
    (hmin : flagMin sig = ["b"])
    (hmax : flagMax sig = ["b"])
    (hnf : ∀ a ∈ args, pyStartsWith a "-" = false) :
    strMapperCall "-" "=" true (hasKwargs sig) (flagMin sig) (flagMax sig) args
      = .error .missingRequiredFlags
    ∧ strMapperCall "-" "=" true (hasKwargs sig) (flagMin sig) (flagMax sig) ["-b", "v"]
      = .ok ([], [("b", Value.str "v")])
    ∧ strMapperCall "-" "=" true (hasKwargs sig) (flagMin sig) (flagMax sig) ["-b=v"]
      = .ok ([], [("b", Value.str "v")]) := by
  rw [hkw, hmin, hmax]
  refine ⟨?_, by decide, by decide⟩
  simp only [strMapperCall, parseIter_no_flags "-" "=" true args hnf]
  rw [filterMap_noflag args "="]
  simp [buildDict, alHas, alGet]

/-- C6 witness: the three behaviours at the concrete handler
`def f(*, b)` and the flag-free token list `["z"]`. -/
theorem C6_witness :
    hasKwargs sigC6 = false
    ∧ flagMin sigC6 = ["b"]
    ∧ flagMax sigC6 = ["b"]
    ∧ (strMapperCall "-" "=" true (hasKwargs sigC6) (flagMin sigC6) (flagMax sigC6) ["z"]
        = .error .missingRequiredFlags
      ∧ strMapperCall "-" "=" true (hasKwargs sigC6) (flagMin sigC6) (flagMax sigC6) ["-b", "v"]
        = .ok ([], [("b", Value.str "v")])
      ∧ strMapperCall "-" "=" true (hasKwargs sigC6) (flagMin sigC6) (flagMax sigC6) ["-b=v"]
        = .ok ([], [("b", Value.str "v")])) :=
  ⟨by decide, by decide, by decide,
    C6_theorem sigC6 ["z"] (by decide) (by decide) (by decide) (by decide)⟩

/-- C7: confirmed. For any handler whose flag-default map sends `a` to
`false` (a keyword-only parameter `a` with default `False`), the
`BoolMapper` toggles: mapping `["-a", "-a"]` toggles `a` to true and back,
yielding `a = false` in the resulting keyword map, with no positional
arguments. -/
theorem C7_theorem (sig : List Param) (kebab : Bool)
    (hdef : alGet (boolFlagDefaults sig) "a" = some (Value.bool false)) :
    ∃ kw, boolMapperCall "-" kebab (hasKwargs sig) (boolFlagDefaults sig) ["-a", "-a"]
        = .ok ([], kw)
      ∧ alGet kw "a" = some (Value.bool false) := by
  have hparse : ((["-a", "-a"].filter (fun a => pyStartsWith a "-")).map (parseArgName "-" kebab))
      = ["a", "a"] := by
    cases kebab <;> decide
  have hnp : (["-a", "-a"].filter (fun a => !pyStartsWith a "-")) = [] := by decide
  have h1 : alHas (boolFlagDefaults sig) "a" = true := by
    unfold alHas
    rw [hdef]
    rfl
  have ht1 : toggleVal (boolFlagDefaults sig) "a" = true := by
    rw [toggleVal_of_get _ _ _ hdef]
    rfl
  have hga : alGet (alSet (boolFlagDefaults sig) "a" (Value.bool (toggleVal (boolFlagDefaults sig) "a"))) "a"
      = some (Value.bool true) := by
    rw [alGet_alSet_self, ht1]
  have h2 : alHas (alSet (boolFlagDefaults sig) "a" (Value.bool (toggleVal (boolFlagDefaults sig) "a"))) "a" = true := by
    unfold alHas
    rw [hga]
    rfl
  have ht2 : toggleVal (alSet (boolFlagDefaults sig) "a" (Value.bool (toggleVal (boolFlagDefaults sig) "a"))) "a" = false := by
    rw [toggleVal_of_get _ _ _ hga]
    rfl
  simp only [boolMapperCall, hparse, hnp]
  rw [boolLoop_step_mem _ _ _ _ h1, boolLoop_step_mem _ _ _ _ h2]
  refine ⟨_, rfl, ?_⟩
  rw [alGet_alSet_self, ht2]

/-- C7 witness: the toggle at the concrete handler `def f(*, a=False)`. -/
theorem C7_witness :
    alGet (boolFlagDefaults sigC7) "a" = some (Value.bool false)
    ∧ ∃ kw, boolMapperCall "-" true (hasKwargs sigC7) (boolFlagDefaults sigC7) ["-a", "-a"]
        = .ok ([], kw)
      ∧ alGet kw "a" = some (Value.bool false) :=
  ⟨by decide, C7_theorem sigC7 true (by decide)⟩

/-- C8: the claim as stated is false. `help` with no arguments iterates
over `_commands`, to which EVERY successful registration appends —
subcommands included. With the four built-ins, a top-level `ex` and its
subcommand `sub`, the listing has six entries, not five: the subcommand
`sub` appears. -/
theorem C8_counterexample :
    (helpListing bStatePC).map Cmd.func = [1, 2, 3, 4, 10, 20]
    ∧ (topLevelCmds bStatePC).map Cmd.func = [1, 2, 3, 4, 10]
    ∧ ¬ helpListing bStatePC = topLevelCmds bStatePC
    ∧ (bStatePC.commands.getD 5 dummyCmd).parentId = some bCmdP.cid := by decide

/-- C8 (amended): `help` with zero arguments lists every registered
command — top-level commands and subcommands alike — in global
registration order: each successful registration appends exactly its new
command to the end of the listing, whether or not a parent was given. -/
theorem C8_theorem (σ : RegState) (na : NameArg) (pa : ParentArg)
    (mOpt : Option Mapper) (onLoad : Option LoadB) (func : Nat)
    (funcName : String) (sig : List Param) (cid : Nat)
    (hout : (register σ na pa mOpt onLoad func funcName sig).2 = .ok cid) :
    ∃ c : Cmd, c.cid = cid ∧
      helpListing (register σ na pa mOpt onLoad func funcName sig).1
        = helpListing σ ++ [c] := by
  cases pa with
  | badPar => simp [register] at hout
  | noPar => exact registerCore_ok_appends σ na none mOpt onLoad func funcName sig cid hout
  | parC c => exact registerCore_ok_appends σ na (some c) mOpt onLoad func funcName sig cid hout

/-- C8 witness: registering the subcommand `sub` under `ex` appends it to
the help listing. -/
theorem C8_witness :
    (register bStateP (.nStr "sub") (.parC bCmdP) none none 20 "sub" []).2 = RegOutcome.ok 5
    ∧ ∃ c : Cmd, c.cid = 5 ∧
        helpListing (register bStateP (.nStr "sub") (.parC bCmdP) none none 20 "sub" []).1
          = helpListing bStateP ++ [c] :=
  ⟨by decide,
    C8_theorem bStateP (.nStr "sub") (.parC bCmdP) none none 20 "sub" [] 5 (by decide)⟩

/-- C9: confirmed. In `StringMapper._parse_iter`, a flag token without a
set token always consumes the next token of the stream as its value, even
when that next token itself starts with the flag prefix; in particular
`["-a", "-b"]` for a handler declaring only the keyword-only parameter
`a` yields the keyword map `{a: "-b"}`, no positional arguments, no
error. -/
theorem C9_theorem (pfx setTok : String) (kebab : Bool) (t u : String) (rest : List String)
    (hstart : pyStartsWith t pfx = true)
    (hset : strContains t setTok = false) :
    parseIter pfx setTok kebab (t :: u :: rest)
      = (parseIter pfx setTok kebab rest).map
          (fun r => (parseArgName pfx kebab t ++ setTok ++ u, true) :: r)
    ∧ strMapperCall "-" "=" true false ["a"] ["a"] ["-a", "-b"]
      = .ok ([], [("a", Value.str "-b")]) := by
  constructor
  · simp only [parseIter, hstart, hset]
    simp
  · decide

/-- C9 witness: the consumption rule at `["-a", "-b"]`. -/
theorem C9_witness :
    pyStartsWith "-a" "-" = true
    ∧ strContains "-a" "=" = false
    ∧ (parseIter "-" "=" true ["-a", "-b"]
        = (parseIter "-" "=" true []).map
            (fun r => (parseArgName "-" true "-a" ++ "=" ++ "-b", true) :: r)
      ∧ strMapperCall "-" "=" true false ["a"] ["a"] ["-a", "-b"]
        = .ok ([], [("a", Value.str "-b")])) :=
  ⟨by decide, by decide, C9_theorem "-" "=" true "-a" "-b" [] (by decide) (by decide)⟩

/-- C10: confirmed. A bound `BoolMapper` is pure across invocations: one
call never changes the contents of the stored `_flag_defaults` dict (the
`dict(...)` copy in `flag_defaults` shields it), a call's observable
result is a pure function of the stored defaults and the tokens, and two
successive calls with the same tokens observe equal results. -/
theorem C10_theorem (st : Store) (m : BoolMapperH) (args : List String)
    (h : m.defaultsAddr < st.dicts.length) :
    readD (boolCallH st m args).1 m.defaultsAddr = readD st m.defaultsAddr
    ∧ observeBool (boolCallH st m args)
        = boolMapperCall m.pfx m.kebab m.hasKw (readD st m.defaultsAddr) args
    ∧ observeBool (boolCallH (boolCallH st m args).1 m args)
        = observeBool (boolCallH st m args) := by
  have h1 := boolCallH_defaults_preserved st m args h
  have h2 := boolCallH_observe st m args
  have h3 := boolCallH_observe (boolCallH st m args).1 m args
  rw [h1] at h3
  exact ⟨h1, h2, by rw [h3, h2]⟩

/-- C10 witness: the purity facts at a one-dict store holding
`{a: False}` and the call `["-a"]`. -/
theorem C10_witness :
    (⟨"-", true, false, 0⟩ : BoolMapperH).defaultsAddr
        < (Store.mk [[("a", Value.bool false)]]).dicts.length
    ∧ (readD (boolCallH ⟨[[("a", Value.bool false)]]⟩ ⟨"-", true, false, 0⟩ ["-a"]).1 0
        = readD ⟨[[("a", Value.bool false)]]⟩ 0
      ∧ observeBool (boolCallH ⟨[[("a", Value.bool false)]]⟩ ⟨"-", true, false, 0⟩ ["-a"])
          = boolMapperCall "-" true false (readD ⟨[[("a", Value.bool false)]]⟩ 0) ["-a"]
      ∧ observeBool (boolCallH (boolCallH ⟨[[("a", Value.bool false)]]⟩ ⟨"-", true, false, 0⟩ ["-a"]).1
            ⟨"-", true, false, 0⟩ ["-a"])
          = observeBool (boolCallH ⟨[[("a", Value.bool false)]]⟩ ⟨"-", true, false, 0⟩ ["-a"])) :=
  ⟨by decide, C10_theorem ⟨[[("a", Value.bool false)]]⟩ ⟨"-", true, false, 0⟩ ["-a"] (by decide)⟩

end CmdSpec
